import Mathlib

/-!
# timeroast2.c : request builder, response correlator and scan loop

A shallow embedding of `src/timeroast2.c`.

* Memory cells of type `uint8_t` are values of `Byte = Fin 256`; byte buffers are
  lists of bytes and `buf + k` is `List.drop k`.
* `uint32_t` and `uint64_t` values are natural numbers, reduced modulo `2^32` and
  `2^64` wherever the C arithmetic can wrap.
* `memcpy (&id, ...)` copies the object representation of a `uint32_t`; the byte
  order of that representation is the platform's, so it is a parameter
  (`ByteOrder`) of every definition that depends on it.
* The environment (clock readings of `now_ms`, the outcome of `select`/`recv`) is
  supplied to each loop iteration as a `TickEnv`; what the program does to the
  outside world (`sendto`, `select` time-outs, `fprintf` lines, `sleep_ms`) is
  recorded in traces inside the loop state.
* `realloc` is assumed to succeed (the failure branch calls `exit`).
-/

namespace Timeroast

/-! ## Bytes and raw 32-bit copies -/

/-- One `uint8_t` memory cell. -/
abbrev Byte := Fin 256

/-- Conversion of an integer to `uint8_t` (reduction modulo 256). -/
def byte_of (n : Nat) : Byte := ⟨n % 256, Nat.mod_lt n (by decide)⟩

/-- Byte order of the object representation of multi-byte integers. -/
inductive ByteOrder where
  | little
  | big
  deriving DecidableEq, Repr

/-- The four bytes of a `uint32_t`, least significant first. -/
def u32_bytes_le (x : Nat) : List Byte :=
  [byte_of x, byte_of (x / 2 ^ 8), byte_of (x / 2 ^ 16), byte_of (x / 2 ^ 24)]

/-- Object representation of a `uint32_t` as read by `memcpy (dst, &x, 4)`. -/
def u32_store (bo : ByteOrder) (x : Nat) : List Byte :=
  match bo with
  | ByteOrder.little => u32_bytes_le x
  | ByteOrder.big => (u32_bytes_le x).reverse

/-- Value of four bytes taken least significant first. -/
def u32_of_le (bs : List Byte) : Nat :=
  (bs.getD 0 0).val + 2 ^ 8 * (bs.getD 1 0).val + 2 ^ 16 * (bs.getD 2 0).val
    + 2 ^ 24 * (bs.getD 3 0).val

/-- The `uint32_t` written by `memcpy (&x, src, 4)`. -/
def u32_load (bo : ByteOrder) (bs : List Byte) : Nat :=
  match bo with
  | ByteOrder.little => u32_of_le bs
  | ByteOrder.big => u32_of_le bs.reverse

/-- The call `memcpy (dst + off, src, n)`, for `off + n ≤ dst.length` and
`n ≤ src.length`. -/
def memcpy (dst : List Byte) (off : Nat) (src : List Byte) (n : Nat) : List Byte :=
  dst.take off ++ src.take n ++ dst.drop (off + n)

/-- The call `memset (dst + off, c, n)`, for `off + n ≤ dst.length`. -/
def memset (dst : List Byte) (off : Nat) (c : Nat) (n : Nat) : List Byte :=
  dst.take off ++ List.replicate n (byte_of c) ++ dst.drop (off + n)

/-! ## Constants -/

def DEFAULT_RATE : Int := 180

def DEFAULT_TIMEOUT : Int := 24

/-- The 48-byte header. -/
def NTP_PREFIX : List Byte :=
  [0xdb, 0x00, 0x11, 0xe9, 0x00, 0x00, 0x00, 0x00,
   0x00, 0x01, 0x00, 0x00, 0x00, 0x00, 0x00, 0x00,
   0xe1, 0xb8, 0x40, 0x7d, 0xeb, 0xc7, 0xe5, 0x06,
   0x00, 0x00, 0x00, 0x00, 0x00, 0x00, 0x00, 0x00,
   0x00, 0x00, 0x00, 0x00, 0x00, 0x00, 0x00, 0x00,
   0xe1, 0xb8, 0x42, 0x8b, 0xff, 0xbf, 0xcd, 0x0a]

/-- The 48-byte prefix + 4 RID + 16 dummy MAC. -/
def QUERY_LEN : Nat := 68

/-! ## Dynamic array utilities -/

/-- The growable array `vec32_t`: `v` is the allocated block (`cap` cells), of which
the first `len` are in use. -/
structure vec32_t where
  v : List Nat
  len : Nat
  cap : Nat
  deriving DecidableEq, Repr

/-- The initialiser `{0}`: null block, no elements, no capacity. -/
def vec32_zero : vec32_t := { v := [], len := 0, cap := 0 }

/-- A successful `realloc (v, n * sizeof *v)`: the old cells are kept (up to the
new size) and the fresh cells hold unspecified values, taken as 0. -/
def realloc (v : List Nat) (n : Nat) : List Nat :=
  v.take n ++ List.replicate (n - v.length) 0

/-- The function `vec32_push`. -/
def vec32_push (vec : vec32_t) (val : Nat) : vec32_t :=
  let vec1 : vec32_t :=
    if vec.len = vec.cap then
      let cap := if vec.cap ≠ 0 then vec.cap * 2 else 64
      { vec with cap := cap, v := realloc vec.v cap }
    else vec
  { vec1 with v := vec1.v.set vec1.len (val % 2 ^ 32), len := vec1.len + 1 }

/-- The elements held by a vector: cells `0 .. len-1` of its block. -/
def vec32_elems (vec : vec32_t) : List Nat := vec.v.take vec.len

/-- Representation invariant of `vec32_t`. -/
def vec32_wf (vec : vec32_t) : Prop := vec.v.length = vec.cap ∧ vec.len ≤ vec.cap

/-! ## Range expansion in `parse_rids` -/

/-- The loop `for (uint32_t i = a; i <= b; i++) vec32_push (out, i);` of
`parse_rids`, run for at most `fuel` evaluations of its condition. The result is
`none` when the loop is still running after `fuel` evaluations. -/
def range_loop (b : Nat) : Nat → Nat → vec32_t → Option vec32_t
  | 0, _, _ => none
  | fuel + 1, i, out =>
    if i ≤ b then range_loop b fuel ((i + 1) % 2 ^ 32) (vec32_push out i)
    else some out

/-- The range branch of `parse_rids` for a token whose two numbers `strtoul`
converted to the `uint32_t` values `a` and `b`: `Except.error` is the
`Bad range` exit, `Except.ok none` a loop still running after `fuel` steps. -/
def parse_rids_range (fuel : Nat) (a b : Nat) (out : vec32_t) :
    Except String (Option vec32_t) :=
  if a > b then Except.error "Bad range"
  else Except.ok (range_loop b fuel a out)

/-! ## Helper functions -/

/-- The function `build_query`: `buf` is the caller's 68-byte array on entry, the
result is the array on return. -/
def build_query (bo : ByteOrder) (buf : List Byte) (rid : Nat) (old_format : Int) :
    List Byte :=
  let buf1 := memcpy buf 0 NTP_PREFIX NTP_PREFIX.length
  let id := (rid ^^^ (if old_format ≠ 0 then 2 ^ 31 else 0)) % 2 ^ 32
  let buf2 := memcpy buf1 NTP_PREFIX.length (u32_store bo id) 4
  memset buf2 (NTP_PREFIX.length + 4) 0 16

/-- The lookup table `hex` of `bin2hex`. -/
def hex : List Char := "0123456789abcdef".toList

/-- The body of the `for` loop of `bin2hex`, for the `k` indices `i, i+1, ...`. -/
def bin2hex_loop (inp : List Byte) : Nat → Nat → List Char → List Char
  | 0, _, out => out
  | k + 1, i, out =>
    let b := (inp.getD i 0).val
    let out1 := out.set (i * 2) (hex.getD (b >>> 4) (Char.ofNat 0))
    let out2 := out1.set (i * 2 + 1) (hex.getD (b &&& 0xF) (Char.ofNat 0))
    bin2hex_loop inp k (i + 1) out2

/-- The function `bin2hex`: `out` is the destination array on entry, the result is
that array on return (`2 * n` digits and the terminating NUL). -/
def bin2hex (inp : List Byte) (n : Nat) (out : List Char) : List Char :=
  (bin2hex_loop inp n 0 out).set (n * 2) (Char.ofNat 0)

/-- What `%s` prints for a character array: the characters before the first NUL. -/
def c_string (a : List Char) : List Char := a.takeWhile (fun c => c ≠ Char.ofNat 0)

/-- What `%u` prints for a `uint32_t`: its decimal digits. -/
def fmt_u (x : Nat) : List Char := Nat.toDigits 10 x

/-! ## Main: configuration, environment and loop state -/

/-- The command-line integers used by the loop (`atoi` results and the `-l` flag). -/
structure Config where
  rate : Int
  timeout : Int
  old_format : Int
  deriving DecidableEq, Repr

/-- Conversion of an `int` to `uint64_t`. -/
def to_u64 (x : Int) : Nat := (x % 2 ^ 64).toNat

/-- Conversion of a `uint64_t` to `int`. -/
def to_int (x : Nat) : Int :=
  if x % 2 ^ 32 < 2 ^ 31 then ((x % 2 ^ 32 : Nat) : Int) else ((x % 2 ^ 32 : Nat) : Int) - 2 ^ 32

/-- Subtraction of two `uint64_t` values. -/
def u64_sub (a b : Nat) : Nat := (a % 2 ^ 64 + 2 ^ 64 - b % 2 ^ 64) % 2 ^ 64

/-- The value `silence_ms = (uint64_t) timeout * 1000ULL`. -/
def silence_ms (cfg : Config) : Nat := (to_u64 cfg.timeout * 1000) % 2 ^ 64

/-- The divisor `rate ? (uint64_t) rate : 1` of the interval computation. -/
def interval_divisor (cfg : Config) : Nat := if cfg.rate ≠ 0 then to_u64 cfg.rate else 1

/-- The value `interval = 1000ULL / (rate ? (uint64_t) rate : 1)`. -/
def interval (cfg : Config) : Nat := 1000 / interval_divisor cfg

/-- The time-out `tv = { 0, (int) (interval * 1000) }` passed to `select`, as
(`tv_sec`, `tv_usec`). -/
def select_tv (cfg : Config) : Int × Int := (0, to_int ((interval cfg * 1000) % 2 ^ 64))

/-- What `select` and `recv` deliver in one iteration. -/
inductive RecvEvent where
  /-- The call to `select` reports no readable socket. -/
  | idle
  /-- The socket is readable and `recv` returns -1. -/
  | failed
  /-- The socket is readable and `recv` dequeues the datagram `d`. -/
  | datagram (d : List Byte)
  deriving DecidableEq, Repr

/-- The environment of one loop iteration: the clock readings returned by the calls
of `now_ms` in program order, and the outcome of `select`/`recv`. -/
structure TickEnv where
  /-- The call `now_ms ()` in the loop condition. -/
  t_cond : Nat
  /-- The call `now_ms ()` that initialises `loop_start`. -/
  t_start : Nat
  /-- The clock when `select` is entered; the program does not read it. -/
  t_select : Nat
  rx : RecvEvent
  /-- The call `now_ms ()` assigned to `last_rx` in the accept branch. -/
  t_accept : Nat
  /-- The call `now_ms ()` that computes `elapsed`. -/
  t_end : Nat
  deriving DecidableEq, Repr

/-- The variables of `main` that the loop changes, and traces of its effects. -/
structure LoopState where
  idx : Nat
  last_rx : Nat
  seen : vec32_t
  query : List Byte
  buf : List Byte
  /-- The lines written to `outf`, one per `fprintf`. -/
  outf : List (List Char)
  /-- The datagrams passed to `sendto`. -/
  sent : List (List Byte)
  /-- The time-outs passed to `select`. -/
  polls : List (Int × Int)
  /-- The arguments of `sleep_ms`. -/
  sleeps : List Nat
  deriving DecidableEq, Repr

/-- The state when the loop is entered; `t0` is the reading `last_rx = now_ms ()`.
The uninitialised arrays `query` and `buf` hold unspecified bytes, taken as 0. -/
def init_state (t0 : Nat) : LoopState :=
  { idx := 0, last_rx := t0 % 2 ^ 64, seen := vec32_zero,
    query := List.replicate QUERY_LEN 0, buf := List.replicate 120 0,
    outf := [], sent := [], polls := [], sleeps := [] }

/-- The loop condition `now_ms () - last_rx < silence_ms`. -/
def loop_cond (cfg : Config) (st : LoopState) (now : Nat) : Bool :=
  decide (u64_sub now st.last_rx < silence_ms cfg)

/-- The send step: `if (idx < rids.len) { build_query (...); sendto (...); }`. -/
def send_step (bo : ByteOrder) (cfg : Config) (rids : vec32_t) (st : LoopState) :
    LoopState :=
  if st.idx < rids.len then
    let q := build_query bo st.query (rids.v.getD st.idx 0) cfg.old_format
    { st with query := q, idx := st.idx + 1, sent := st.sent ++ [q.take QUERY_LEN] }
  else st

/-- The decode of the identifier: `memcpy (&rid_answer, buf + sizeof NTP_PREFIX, 4)`
followed by `if (old_format) rid_answer ^= 1u << 31`. -/
def rid_answer (bo : ByteOrder) (buf : List Byte) (old_format : Int) : Nat :=
  let r := u32_load bo ((buf.drop NTP_PREFIX.length).take 4)
  if old_format ≠ 0 then (r ^^^ 2 ^ 31) % 2 ^ 32 else r

/-- The duplicate scan `for (i = 0; i < seen.len; i++) if (seen.v[i] == rid) ...`
for the `k` indices `i, i+1, ...`. -/
def duplicate_loop (seen : vec32_t) (rid : Nat) : Nat → Nat → Bool
  | 0, _ => false
  | k + 1, i => if seen.v.getD i 0 = rid then true else duplicate_loop seen rid k (i + 1)

/-- The flag `duplicate` after the scan. -/
def duplicate (seen : vec32_t) (rid : Nat) : Bool := duplicate_loop seen rid seen.len 0

/-- The line printed by `fprintf (outf, "%u:$sntp-ms$%s$%s\n", rid, hash_hex, salt_hex)`. -/
def fprintf_record (rid : Nat) (hash_hex salt_hex : List Char) : List Char :=
  fmt_u rid ++ ":$sntp-ms$".toList ++ c_string hash_hex ++ ['$'] ++ c_string salt_hex ++ ['\n']

/-- The line the accept branch prints for the buffer `buf`: `salt_hex` and `hash_hex`
are uninitialised arrays of 97 and 33 characters (unspecified content, taken as
question marks) filled by `bin2hex`. -/
def record_of (bo : ByteOrder) (cfg : Config) (buf : List Byte) : List Char :=
  let salt_hex := bin2hex buf 48 (List.replicate 97 '?')
  let hash_hex := bin2hex (buf.drop 52) 16 (List.replicate 33 '?')
  fprintf_record (rid_answer bo buf cfg.old_format) hash_hex salt_hex

/-- The body of `if (n == 68) { ... }` together with its test; `n` is the value
returned by `recv` and `t_accept` the clock reading used if the answer is accepted. -/
def handle_recv (bo : ByteOrder) (cfg : Config) (st : LoopState) (n : Int)
    (t_accept : Nat) : LoopState :=
  if n = 68 then
    let r := rid_answer bo st.buf cfg.old_format
    if duplicate st.seen r then st
    else
      { st with seen := vec32_push st.seen r,
                outf := st.outf ++ [record_of bo cfg st.buf],
                last_rx := t_accept % 2 ^ 64 }
  else st

/-- The receive step: `select`, then `recv (sock, buf, sizeof buf, 0)`, which stores
at most 120 bytes of the datagram in `buf` and returns the number stored. -/
def recv_step (bo : ByteOrder) (cfg : Config) (st : LoopState) (e : TickEnv) : LoopState :=
  let st1 := { st with polls := st.polls ++ [select_tv cfg] }
  match e.rx with
  | RecvEvent.idle => st1
  | RecvEvent.failed => handle_recv bo cfg st1 (-1) e.t_accept
  | RecvEvent.datagram d =>
    let n := min d.length 120
    handle_recv bo cfg { st1 with buf := memcpy st1.buf 0 d n } n e.t_accept

/-- The end of the loop body: `elapsed = now_ms () - loop_start` and the sleep. -/
def sleep_step (cfg : Config) (st : LoopState) (e : TickEnv) : LoopState :=
  let elapsed := u64_sub e.t_end e.t_start
  if elapsed < interval cfg then
    { st with sleeps := st.sleeps ++ [(interval cfg - elapsed) % 2 ^ 64] }
  else st

/-- One execution of the loop body. -/
def tick (bo : ByteOrder) (cfg : Config) (rids : vec32_t) (st : LoopState) (e : TickEnv) :
    LoopState :=
  sleep_step cfg (recv_step bo cfg (send_step bo cfg rids st) e) e

/-- The two states of the scan loop. -/
inductive Phase where
  | RUNNING
  | DONE
  deriving DecidableEq, Repr

/-- The loop `while (now_ms () - last_rx < silence_ms) { ... }` against the
environments of its successive iterations: `DONE` with the state at loop exit, or
`RUNNING` with the current state when the listed iterations are used up. -/
def main_loop (bo : ByteOrder) (cfg : Config) (rids : vec32_t) :
    List TickEnv → LoopState → Phase × LoopState
  | [], st => (Phase.RUNNING, st)
  | e :: es, st =>
    if loop_cond cfg st e.t_cond then main_loop bo cfg rids es (tick bo cfg rids st e)
    else (Phase.DONE, st)

/-- The state after the loop body has run once for each listed environment. -/
def run_ticks (bo : ByteOrder) (cfg : Config) (rids : vec32_t) :
    List TickEnv → LoopState → LoopState
  | [], st => st
  | e :: es, st => run_ticks bo cfg rids es (tick bo cfg rids st e)

/-- The count printed by `fprintf (stderr, "Recovered %zu hashes.\n", seen.len)`. -/
def summary_count (st : LoopState) : Nat := st.seen.len

/-! ## Specification-side definitions -/

/-- Lowercase hexadecimal digit of a value below 16. -/
def hex_digit (n : Nat) : Char := if n < 10 then Char.ofNat (48 + n) else Char.ofNat (87 + n)

/-- Lowercase hexadecimal encoding, two digits per byte, high nibble first. -/
def hex_encode (bs : List Byte) : List Char :=
  bs.flatMap (fun b => [hex_digit (b.val / 16), hex_digit (b.val % 16)])

/-- The characters `0-9a-f`. -/
def is_lower_hex (c : Char) : Bool :=
  (decide ('0' ≤ c) && decide (c ≤ '9')) || (decide ('a' ≤ c) && decide (c ≤ 'f'))

/-- The result line `<identifier>:$sntp-ms$<secret_hex>$<salt_hex>` with its newline. -/
def result_line (r : Nat) (secret_hex salt_hex : List Char) : List Char :=
  Nat.toDigits 10 r ++ ":$sntp-ms$".toList ++ secret_hex ++ ['$'] ++ salt_hex ++ ['\n']

/-- The datagrams of exactly 68 bytes among the received events, in arrival order. -/
def received68 (es : List TickEnv) : List (List Byte) :=
  es.filterMap (fun e =>
    match e.rx with
    | RecvEvent.datagram d => if d.length = 68 then some d else none
    | _ => none)

/-- The distinct values of a list in order of first occurrence. -/
def first_arrivals : List Nat → List Nat
  | [] => []
  | x :: xs => x :: (first_arrivals xs).filter (fun y => y ≠ x)

/-- The identifiers decoded from the 68-byte datagrams received, in arrival order. -/
def decoded_ids (bo : ByteOrder) (cfg : Config) (es : List TickEnv) : List Nat :=
  (received68 es).map (fun d => rid_answer bo d cfg.old_format)

/-- The result record of a 68-byte datagram `d`: secret material is bytes 52..67,
salt is bytes 0..47. -/
def expected_record (bo : ByteOrder) (cfg : Config) (d : List Byte) : List Char :=
  result_line (rid_answer bo d cfg.old_format) (hex_encode ((d.drop 52).take 16))
    (hex_encode (d.take 48))

/-- The poll budget of a tick in microseconds: the last time-out handed to `select`. -/
def poll_budget_us (st : LoopState) : Option Int :=
  st.polls.getLast?.map (fun tv => tv.1 * 1000000 + tv.2)

/-- The poll budget the specification describes, in microseconds: the pacing interval
minus the time elapsed since the tick began, clamped at zero. -/
def spec_poll_budget_us (cfg : Config) (e : TickEnv) : Int :=
  (((interval cfg - u64_sub e.t_select e.t_start) * 1000 : Nat) : Int)

/-! ## Sample inputs -/

/-- The default configuration: rate 180, idle timeout 24 s, current identifier format. -/
def sample_cfg : Config := { rate := DEFAULT_RATE, timeout := DEFAULT_TIMEOUT, old_format := 0 }

/-- A 68-byte reply for identifier 1105 (little-endian field) with a 16-byte digest. -/
def sample_reply : List Byte :=
  NTP_PREFIX ++ [0x51, 0x04, 0x00, 0x00]
    ++ [0x00, 0x11, 0x22, 0x33, 0x44, 0x55, 0x66, 0x77,
        0x88, 0x99, 0xaa, 0xbb, 0xcc, 0xdd, 0xee, 0xff]

/-- An iteration that starts at 0 ms, enters `select` at 3 ms, receives `sample_reply`
and reaches the end of the body at 4 ms. -/
def sample_env : TickEnv :=
  { t_cond := 0, t_start := 0, t_select := 3, rx := RecvEvent.datagram sample_reply,
    t_accept := 4, t_end := 4 }

/-- An iteration like `sample_env` in which a 40-byte datagram arrives. -/
def garbage_env : TickEnv :=
  { sample_env with rx := RecvEvent.datagram (List.replicate 40 0xab) }

/-- The identifier list of the command line `-r 1105`. -/
def sample_rids : vec32_t := vec32_push vec32_zero 1105

/-! ## Request builder and identifier decode -/

theorem u32_store_length (bo : ByteOrder) (x : Nat) : (u32_store bo x).length = 4 := by
  cases bo <;> simp [u32_store, u32_bytes_le]

theorem NTP_PREFIX_length : NTP_PREFIX.length = 48 := by decide

theorem layout_aux (P S buf : List Byte) (z : Byte) (hP : P.length = 48) (hS : S.length = 4)
    (hbuf : buf.length = 68) :
    List.take (48 + 4) (List.take 48 (List.take 0 buf ++ List.take 48 P ++ List.drop (0 + 48) buf)
        ++ List.take 4 S
        ++ List.drop (48 + 4) (List.take 0 buf ++ List.take 48 P ++ List.drop (0 + 48) buf))
      ++ List.replicate 16 z
      ++ List.drop (48 + 4 + 16)
          (List.take 48 (List.take 0 buf ++ List.take 48 P ++ List.drop (0 + 48) buf)
            ++ List.take 4 S
            ++ List.drop (48 + 4) (List.take 0 buf ++ List.take 48 P ++ List.drop (0 + 48) buf))
      = P ++ S ++ List.replicate 16 z := by
  have e1 : List.take 48 P = P := List.take_of_length_le (by omega)
  have e2 : List.take 4 S = S := List.take_of_length_le (by omega)
  have e3 : List.take 48 (P ++ List.drop 48 buf) = P := by
    rw [List.take_append_of_le_length (by omega)]; exact e1
  have e4 : List.drop 52 (P ++ List.drop 48 buf) = List.drop 52 buf := by
    rw [List.drop_append_eq_append_drop]
    simp [hP, List.drop_of_length_le]
  have e5 : List.take 52 (P ++ S ++ List.drop 52 buf) = P ++ S := by
    rw [List.take_append_of_le_length (by simp [hP, hS])]
    exact List.take_of_length_le (by simp [hP, hS])
  have e6 : List.drop 68 (P ++ S ++ List.drop 52 buf) = [] := by
    apply List.drop_of_length_le
    simp [hP, hS, hbuf]
  simp only [List.take_zero, List.nil_append, Nat.zero_add, e1, e2, e3, e4, e5, e6,
    Nat.reduceAdd, List.append_nil]

theorem build_query_eq (bo : ByteOrder) (buf : List Byte) (rid : Nat) (old_format : Int)
    (hbuf : buf.length = 68) :
    build_query bo buf rid old_format
      = NTP_PREFIX ++ u32_store bo ((rid ^^^ (if old_format ≠ 0 then 2 ^ 31 else 0)) % 2 ^ 32)
          ++ List.replicate 16 0 := by
  have h4 := u32_store_length bo ((rid ^^^ (if old_format ≠ 0 then 2 ^ 31 else 0)) % 2 ^ 32)
  simp only [build_query, memcpy, memset, NTP_PREFIX_length]
  exact layout_aux _ _ _ _ NTP_PREFIX_length h4 hbuf

theorem u32_load_store (bo : ByteOrder) (x : Nat) (hx : x < 2 ^ 32) :
    u32_load bo (u32_store bo x) = x := by
  cases bo <;>
    simp [u32_load, u32_store, u32_bytes_le, u32_of_le, byte_of] <;> omega

theorem xor_mask_lt (rid : Nat) (old_format : Int) (h : rid < 2 ^ 32) :
    rid ^^^ (if old_format ≠ 0 then 2 ^ 31 else 0) < 2 ^ 32 := by
  apply Nat.xor_lt_two_pow h
  split <;> decide

theorem xor_mask_cancel (rid : Nat) : (rid ^^^ 2 ^ 31) ^^^ 2 ^ 31 = rid := by
  rw [Nat.xor_assoc, Nat.xor_self, Nat.xor_zero]

theorem build_query_id_field (bo : ByteOrder) (buf : List Byte) (rid : Nat) (old_format : Int)
    (hbuf : buf.length = 68) :
    ((build_query bo buf rid old_format).drop NTP_PREFIX.length).take 4
      = u32_store bo ((rid ^^^ (if old_format ≠ 0 then 2 ^ 31 else 0)) % 2 ^ 32) := by
  rw [build_query_eq bo buf rid old_format hbuf, List.append_assoc,
    List.drop_left, List.take_append_of_le_length (by rw [u32_store_length])]
  exact List.take_of_length_le (by rw [u32_store_length])

/-- Claim C4: for every 32-bit identifier and every value of the legacy flag,
`build_query` leaves a 68-byte buffer whose bytes 0..47 are `NTP_PREFIX`, whose bytes
48..51 are the raw copy of `rid XOR (old_format ? 0x80000000 : 0)`, and whose bytes
52..67 are zero; the previous content of the buffer has no influence on the result. -/
theorem build_query_layout (bo : ByteOrder) (buf : List Byte) (rid : Nat) (old_format : Int)
    (hbuf : buf.length = QUERY_LEN) (hrid : rid < 2 ^ 32) :
    (build_query bo buf rid old_format).length = 68
    ∧ NTP_PREFIX.length = 48
    ∧ (build_query bo buf rid old_format).take 48 = NTP_PREFIX
    ∧ ((build_query bo buf rid old_format).drop 48).take 4
        = u32_store bo (rid ^^^ (if old_format ≠ 0 then 2147483648 else 0))
    ∧ (build_query bo buf rid old_format).drop 52 = List.replicate 16 0
    ∧ ∀ buf2 : List Byte, buf2.length = QUERY_LEN →
        build_query bo buf2 rid old_format = build_query bo buf rid old_format := by
  have hid := build_query_id_field bo buf rid old_format hbuf
  rw [Nat.mod_eq_of_lt (xor_mask_lt rid old_format hrid), NTP_PREFIX_length] at hid
  refine ⟨?_, NTP_PREFIX_length, ?_, hid, ?_, ?_⟩
  · rw [build_query_eq bo buf rid old_format hbuf]
    simp [NTP_PREFIX_length, u32_store_length]
  · rw [build_query_eq bo buf rid old_format hbuf, List.append_assoc,
      List.take_append_of_le_length (by rw [NTP_PREFIX_length])]
    exact List.take_of_length_le (by rw [NTP_PREFIX_length])
  · rw [build_query_eq bo buf rid old_format hbuf]
    have : (NTP_PREFIX ++ u32_store bo ((rid ^^^ (if old_format ≠ 0 then 2 ^ 31 else 0)) % 2 ^ 32)).length = 52 := by
      simp [NTP_PREFIX_length, u32_store_length]
    rw [← this, List.drop_left]
  · intro buf2 h2
    rw [build_query_eq bo buf rid old_format hbuf, build_query_eq bo buf2 rid old_format h2]

/-- Claim C1: decoding the identifier field of the request built for identifier `i`
the way the receive path does (raw copy of the 4 bytes at offset 48 in the same byte
order, XOR with `0x80000000` when the legacy flag is set) gives back `i`. -/
theorem rid_answer_build_query (bo : ByteOrder) (buf : List Byte) (i : Nat) (legacy : Int)
    (hbuf : buf.length = QUERY_LEN) (hi : i < 2 ^ 32) :
    rid_answer bo (build_query bo buf i legacy) legacy = i := by
  have hlt := xor_mask_lt i legacy hi
  unfold rid_answer
  rw [build_query_id_field bo buf i legacy hbuf, Nat.mod_eq_of_lt hlt,
    u32_load_store bo _ hlt]
  by_cases h : legacy = 0
  · simp [h]
  · simp only [ne_eq, h, not_false_eq_true, if_true] at hlt ⊢
    rw [xor_mask_cancel, Nat.mod_eq_of_lt hi]

theorem build_query_layout_witness :
    (build_query ByteOrder.little (List.replicate 68 7) 1105 1).length = 68
    ∧ NTP_PREFIX.length = 48
    ∧ (build_query ByteOrder.little (List.replicate 68 7) 1105 1).take 48 = NTP_PREFIX
    ∧ ((build_query ByteOrder.little (List.replicate 68 7) 1105 1).drop 48).take 4
        = u32_store ByteOrder.little (1105 ^^^ (if (1 : Int) ≠ 0 then 2147483648 else 0))
    ∧ (build_query ByteOrder.little (List.replicate 68 7) 1105 1).drop 52 = List.replicate 16 0
    ∧ build_query ByteOrder.little (List.replicate 68 9) 1105 1
        = build_query ByteOrder.little (List.replicate 68 7) 1105 1 :=
  ⟨(build_query_layout ByteOrder.little (List.replicate 68 7) 1105 1 (by decide) (by decide)).1,
   (build_query_layout ByteOrder.little (List.replicate 68 7) 1105 1 (by decide) (by decide)).2.1,
   (build_query_layout ByteOrder.little (List.replicate 68 7) 1105 1 (by decide) (by decide)).2.2.1,
   (build_query_layout ByteOrder.little (List.replicate 68 7) 1105 1 (by decide) (by decide)).2.2.2.1,
   (build_query_layout ByteOrder.little (List.replicate 68 7) 1105 1 (by decide) (by decide)).2.2.2.2.1,
   (build_query_layout ByteOrder.little (List.replicate 68 7) 1105 1 (by decide)
      (by decide)).2.2.2.2.2 (List.replicate 68 9) (by decide)⟩

theorem rid_answer_build_query_witness :
    rid_answer ByteOrder.big (build_query ByteOrder.big (List.replicate 68 7) 4294967295 1) 1
      = 4294967295 :=
  rid_answer_build_query ByteOrder.big (List.replicate 68 7) 4294967295 1 (by decide) (by decide)

/-! ## Loop condition, pacing interval and `select` time-out -/

theorem to_u64_of_nonneg (x : Int) (h0 : 0 ≤ x) (h1 : x < 2 ^ 31) : to_u64 x = x.toNat := by
  unfold to_u64
  rw [Int.emod_eq_of_lt h0 (by omega)]

theorem to_u64_pos (x : Int) (hne : x ≠ 0) (h0 : -2 ^ 31 ≤ x) (h1 : x < 2 ^ 31) :
    0 < to_u64 x := by
  unfold to_u64
  omega

/-- The divisor of the interval computation is positive for every `int` rate. -/
theorem interval_divisor_pos (cfg : Config) (h0 : -2 ^ 31 ≤ cfg.rate) (h1 : cfg.rate < 2 ^ 31) :
    0 < interval_divisor cfg := by
  unfold interval_divisor
  split
  · exact to_u64_pos _ (by assumption) h0 h1
  · decide

theorem interval_le (cfg : Config) : interval cfg ≤ 1000 := Nat.div_le_self _ _

theorem select_tv_eq (cfg : Config) : select_tv cfg = (0, ((interval cfg * 1000 : Nat) : Int)) := by
  have h := interval_le cfg
  have e1 : interval cfg * 1000 % 2 ^ 64 = interval cfg * 1000 := Nat.mod_eq_of_lt (by omega)
  have e2 : interval cfg * 1000 % 2 ^ 32 = interval cfg * 1000 := Nat.mod_eq_of_lt (by omega)
  unfold select_tv to_int
  rw [e1, e2, if_pos (by omega)]

theorem u64_sub_of_le (a b : Nat) (hba : b ≤ a) (ha : a < 2 ^ 64) : u64_sub a b = a - b := by
  unfold u64_sub
  omega

theorem silence_ms_of_nonneg (cfg : Config) (h0 : 0 ≤ cfg.timeout) (h1 : cfg.timeout < 2 ^ 31) :
    silence_ms cfg = cfg.timeout.toNat * 1000 := by
  unfold silence_ms
  rw [to_u64_of_nonneg _ h0 h1]
  omega

/-- Claim C9: for a configured rate of at least 1 the interval is the integer quotient
`1000 / rate` and the divisor is not zero; a configured rate of 0 is divided through as 1
and gives the interval of rate 1, 1000 ms. -/
theorem interval_pacing (cfg : Config) (h1 : 1 ≤ cfg.rate) (h2 : cfg.rate < 2 ^ 31) :
    interval cfg = 1000 / cfg.rate.toNat
    ∧ interval_divisor cfg ≠ 0
    ∧ interval { cfg with rate := 0 } = 1000
    ∧ interval { cfg with rate := 0 } = interval { cfg with rate := 1 }
    ∧ interval_divisor { cfg with rate := 0 } = 1 := by
  have hne : cfg.rate ≠ 0 := by omega
  have hd : interval_divisor cfg = cfg.rate.toNat := by
    unfold interval_divisor
    rw [if_pos hne, to_u64_of_nonneg _ (by omega) h2]
  refine ⟨?_, ?_, ?_, ?_, ?_⟩
  · unfold interval
    rw [hd]
  · rw [hd]; omega
  · simp [interval, interval_divisor]
  · simp [interval, interval_divisor, to_u64]
  · simp [interval_divisor]

theorem interval_pacing_witness :
    interval ⟨180, 24, 0⟩ = 1000 / (180 : Int).toNat
    ∧ interval_divisor ⟨180, 24, 0⟩ ≠ 0
    ∧ interval { (⟨180, 24, 0⟩ : Config) with rate := 0 } = 1000
    ∧ interval { (⟨180, 24, 0⟩ : Config) with rate := 0 }
        = interval { (⟨180, 24, 0⟩ : Config) with rate := 1 }
    ∧ interval_divisor { (⟨180, 24, 0⟩ : Config) with rate := 0 } = 1 :=
  interval_pacing ⟨180, 24, 0⟩ (by decide) (by decide)

/-- Claim C6: with a non-negative idle timeout and a monotonic clock, the loop ends at
the start of a tick exactly when `now - last_rx` has reached `timeout * 1000` ms and
otherwise runs the body once more; the decision is the same for every value of `idx`
and every identifier list, and `last_rx` starts as the clock reading at loop entry. -/
theorem idle_timeout_rule (bo : ByteOrder) (cfg : Config) (rids : vec32_t) (st : LoopState)
    (e : TickEnv) (es : List TickEnv)
    (ht0 : 0 ≤ cfg.timeout) (ht1 : cfg.timeout < 2 ^ 31)
    (hmono : st.last_rx ≤ e.t_cond) (hnow : e.t_cond < 2 ^ 64) :
    main_loop bo cfg rids (e :: es) st
        = (if cfg.timeout.toNat * 1000 ≤ e.t_cond - st.last_rx then (Phase.DONE, st)
           else main_loop bo cfg rids es (tick bo cfg rids st e))
    ∧ (∀ i : Nat, loop_cond cfg { st with idx := i } e.t_cond = loop_cond cfg st e.t_cond)
    ∧ (∀ t0 : Nat, (init_state t0).last_rx = t0 % 2 ^ 64) := by
  refine ⟨?_, fun _ => rfl, fun _ => rfl⟩
  have hc : loop_cond cfg st e.t_cond
      = decide (e.t_cond - st.last_rx < cfg.timeout.toNat * 1000) := by
    unfold loop_cond
    rw [u64_sub_of_le _ _ hmono hnow, silence_ms_of_nonneg cfg ht0 ht1]
  rw [main_loop, hc]
  by_cases h : cfg.timeout.toNat * 1000 ≤ e.t_cond - st.last_rx
  · rw [if_pos h, if_neg (by simpa using h)]
  · rw [if_neg h, if_pos (by simpa using h)]

/-! ## `vec32_t` and the duplicate scan -/

theorem take_succ_set {α : Type} (l : List α) (n : Nat) (x : α) (h : n < l.length) :
    (l.set n x).take (n + 1) = l.take n ++ [x] := by
  rw [List.set_eq_take_append_cons_drop, if_pos h]
  have hl : (List.take n l).length = n := by simp; omega
  rw [List.take_append_eq_append_take, hl]
  simp [List.take_of_length_le, hl]

theorem vec32_zero_wf : vec32_wf vec32_zero := by
  simp [vec32_wf, vec32_zero]

theorem vec32_push_len (vec : vec32_t) (val : Nat) : (vec32_push vec val).len = vec.len + 1 := by
  unfold vec32_push
  split <;> rfl

theorem realloc_grow (v : List Nat) (n : Nat) (h : v.length ≤ n) :
    realloc v n = v ++ List.replicate (n - v.length) 0 := by
  unfold realloc
  rw [List.take_of_length_le h]

theorem realloc_length (v : List Nat) (n : Nat) (h : v.length ≤ n) :
    (realloc v n).length = n := by
  rw [realloc_grow v n h]
  simp
  omega

theorem vec32_push_wf (vec : vec32_t) (val : Nat) (h : vec32_wf vec) :
    vec32_wf (vec32_push vec val) := by
  obtain ⟨hv, hl⟩ := h
  unfold vec32_push vec32_wf
  by_cases hc : vec.len = vec.cap
  · simp only [hc, if_true, List.length_set]
    have hle : vec.v.length ≤ (if vec.cap ≠ 0 then vec.cap * 2 else 64) := by
      split <;> omega
    refine ⟨realloc_length _ _ hle, ?_⟩
    split <;> omega
  · simp only [hc, if_false, List.length_set]
    exact ⟨hv, by omega⟩

theorem vec32_push_elems (vec : vec32_t) (val : Nat) (h : vec32_wf vec) :
    vec32_elems (vec32_push vec val) = vec32_elems vec ++ [val % 2 ^ 32] := by
  obtain ⟨hv, hl⟩ := h
  unfold vec32_push vec32_elems
  by_cases hc : vec.len = vec.cap
  · simp only [hc, if_true]
    have hgrow : vec.v.length < (realloc vec.v (if vec.cap ≠ 0 then vec.cap * 2 else 64)).length := by
      rw [realloc_grow _ _ (by split <;> omega)]
      simp
      split <;> omega
    rw [← hv] at hgrow ⊢
    rw [take_succ_set _ _ _ hgrow, realloc_grow _ _ (by split <;> omega)]
    simp
  · simp only [hc, if_false]
    rw [take_succ_set _ _ _ (by omega)]

theorem duplicate_loop_iff (seen : vec32_t) (rid : Nat) (k : Nat) :
    ∀ i : Nat, i + k ≤ seen.v.length →
      (duplicate_loop seen rid k i = true ↔ rid ∈ (seen.v.drop i).take k) := by
  induction k with
  | zero => intro i _; simp [duplicate_loop]
  | succ k ih =>
    intro i hi
    have hlt : i < seen.v.length := by omega
    have hd : seen.v.drop i = seen.v[i] :: seen.v.drop (i + 1) := by
      simp
    rw [duplicate_loop, hd, List.take_succ_cons, List.mem_cons]
    have hg : seen.v.getD i 0 = seen.v[i] := by
      simp [List.getD, List.getElem?_eq_getElem hlt]
    rw [hg]
    by_cases heq : seen.v[i] = rid
    · simp [heq]
    · rw [if_neg heq, ih (i + 1) (by omega)]
      constructor
      · intro h; exact Or.inr h
      · intro h
        rcases h with h | h
        · exact absurd h.symm heq
        · exact h

theorem duplicate_iff (seen : vec32_t) (rid : Nat) (h : vec32_wf seen) :
    duplicate seen rid = true ↔ rid ∈ vec32_elems seen := by
  unfold duplicate vec32_elems
  have := duplicate_loop_iff seen rid seen.len 0 (by have := h.1; have := h.2; omega)
  simpa using this

/-! ## `bin2hex` -/

theorem hex_getD_eq (n : Nat) (h : n < 16) : hex.getD n (Char.ofNat 0) = hex_digit n := by
  interval_cases n <;> decide

theorem hex_hi (b : Byte) : hex.getD (b.val >>> 4) (Char.ofNat 0) = hex_digit (b.val / 16) := by
  have hb := b.isLt
  rw [Nat.shiftRight_eq_div_pow]
  exact hex_getD_eq _ (by omega)

theorem hex_lo (b : Byte) : hex.getD (b.val &&& 0xF) (Char.ofNat 0) = hex_digit (b.val % 16) := by
  have e : b.val &&& 0xF = b.val % 16 := Nat.and_pow_two_sub_one_eq_mod b.val 4
  rw [e]
  exact hex_getD_eq _ (by omega)

theorem hex_digit_lower (n : Nat) (h : n < 16) : is_lower_hex (hex_digit n) = true := by
  interval_cases n <;> decide

theorem hex_encode_nil : hex_encode [] = [] := rfl

theorem hex_encode_cons (b : Byte) (bs : List Byte) :
    hex_encode (b :: bs) = hex_digit (b.val / 16) :: hex_digit (b.val % 16) :: hex_encode bs := by
  simp [hex_encode]

theorem hex_encode_length (bs : List Byte) : (hex_encode bs).length = 2 * bs.length := by
  induction bs with
  | nil => rfl
  | cons b bs ih => rw [hex_encode_cons]; simp [ih]; omega

theorem hex_encode_lower (bs : List Byte) : ∀ c ∈ hex_encode bs, is_lower_hex c = true := by
  induction bs with
  | nil => intro c hc; simp [hex_encode] at hc
  | cons b bs ih =>
    intro c hc
    have hb := b.isLt
    rw [hex_encode_cons] at hc
    simp only [List.mem_cons] at hc
    rcases hc with h | h | h
    · rw [h]; exact hex_digit_lower _ (by omega)
    · rw [h]; exact hex_digit_lower _ (by omega)
    · exact ih c h

theorem hex_encode_ne_nul (bs : List Byte) : ∀ c ∈ hex_encode bs, c ≠ Char.ofNat 0 := by
  intro c hc h
  have := hex_encode_lower bs c hc
  rw [h] at this
  exact absurd this (by decide)

theorem set_two {α : Type} (l : List α) (j : Nat) (x y : α) (h : j + 2 ≤ l.length) :
    (l.set j x).set (j + 1) y = l.take j ++ x :: y :: l.drop (j + 2) := by
  apply List.ext_getElem
  · simp
    omega
  · intro n h1 h2
    simp only [List.getElem_set, List.getElem_append, List.length_take]
    have hm : min j l.length = j := by omega
    by_cases c1 : n < j
    · simp [hm, c1]
      rw [if_neg (by omega), if_neg (by omega)]
    · by_cases c2 : n = j
      · subst c2
        simp [hm]
      · by_cases c3 : n = j + 1
        · subst c3
          simp [hm]
        · simp [hm, c1]
          rw [if_neg (by omega), if_neg (by omega)]
          obtain ⟨m, rfl⟩ : ∃ m, n = j + 2 + m := ⟨n - (j + 2), by omega⟩
          have : j + 2 + m - j = m + 2 := by omega
          simp [this]

theorem bin2hex_loop_eq (inp : List Byte) (k : Nat) :
    ∀ (i : Nat) (out : List Char), (i + k) * 2 ≤ out.length → i + k ≤ inp.length →
      bin2hex_loop inp k i out
        = out.take (i * 2) ++ hex_encode ((inp.drop i).take k) ++ out.drop ((i + k) * 2) := by
  induction k with
  | zero =>
    intro i out _ _
    simp [bin2hex_loop, hex_encode_nil]
  | succ k ih =>
    intro i out ho hi
    have hlt : i < inp.length := by omega
    have hd : inp.drop i = inp[i] :: inp.drop (i + 1) := by simp
    have hg : inp.getD i 0 = inp[i] := by
      simp [List.getD, List.getElem?_eq_getElem hlt]
    have hA : (List.take (i * 2) out).length = i * 2 := by
      rw [List.length_take]; omega
    rw [bin2hex_loop]
    rw [hg, hex_hi, hex_lo, set_two _ _ _ _ (by omega), hd, List.take_succ_cons,
      hex_encode_cons]
    rw [ih (i + 1) _ (by simp; omega) (by omega)]
    have e1 : List.take ((i + 1) * 2)
        (List.take (i * 2) out ++ hex_digit (inp[i].val / 16) :: hex_digit (inp[i].val % 16)
          :: List.drop (i * 2 + 2) out)
        = List.take (i * 2) out ++ [hex_digit (inp[i].val / 16), hex_digit (inp[i].val % 16)] := by
      rw [List.take_append_eq_append_take, hA]
      have : (i + 1) * 2 - i * 2 = 2 := by omega
      rw [this, List.take_of_length_le (by omega)]
      rfl
    have e2 : List.drop ((i + 1 + k) * 2)
        (List.take (i * 2) out ++ hex_digit (inp[i].val / 16) :: hex_digit (inp[i].val % 16)
          :: List.drop (i * 2 + 2) out)
        = List.drop ((i + (k + 1)) * 2) out := by
      rw [List.drop_append_eq_append_drop, hA]
      have h1 : (i + 1 + k) * 2 - i * 2 = (k * 2) + 2 := by omega
      rw [h1, List.drop_of_length_le (by omega)]
      simp only [List.nil_append, List.drop_succ_cons, List.drop_drop]
      congr 1
      omega
    rw [e1, e2]
    simp

theorem takeWhile_stop {α : Type} (p : α → Bool) (l r : List α) (a : α)
    (hl : ∀ c ∈ l, p c = true) (ha : p a = false) : (l ++ a :: r).takeWhile p = l := by
  induction l with
  | nil => simp [List.takeWhile, ha]
  | cons x xs ih =>
    have hx : p x = true := hl x (List.mem_cons_self _ _)
    rw [List.cons_append, List.takeWhile_cons, hx]
    simp only [if_true]
    rw [ih (fun c hc => hl c (List.mem_cons_of_mem _ hc))]

theorem bin2hex_eq (inp : List Byte) (n : Nat) (out : List Char)
    (ho : n * 2 + 1 ≤ out.length) (hi : n ≤ inp.length) :
    bin2hex inp n out = hex_encode (inp.take n) ++ Char.ofNat 0 :: out.drop (n * 2 + 1) := by
  unfold bin2hex
  rw [bin2hex_loop_eq inp n 0 out (by omega) (by omega)]
  simp only [Nat.zero_mul, List.take_zero, List.nil_append, List.drop_zero, Nat.zero_add]
  have hlen : (hex_encode (List.take n inp)).length = n * 2 := by
    rw [hex_encode_length, List.length_take]; omega
  rw [List.set_append, hlen, if_neg (by omega), Nat.sub_self]
  have hd : List.drop (n * 2) out = out[n * 2] :: List.drop (n * 2 + 1) out := by simp
  rw [hd, List.set_cons_zero]

theorem c_string_bin2hex (inp : List Byte) (n : Nat) (out : List Char)
    (ho : n * 2 + 1 ≤ out.length) (hi : n ≤ inp.length) :
    c_string (bin2hex inp n out) = hex_encode (inp.take n) := by
  rw [bin2hex_eq inp n out ho hi]
  unfold c_string
  apply takeWhile_stop
  · intro c hc
    simpa using hex_encode_ne_nul _ c hc
  · simp

/-! ## Effect of one loop iteration -/

theorem u32_of_le_lt (bs : List Byte) : u32_of_le bs < 2 ^ 32 := by
  unfold u32_of_le
  have h0 := (bs.getD 0 0).isLt
  have h1 := (bs.getD 1 0).isLt
  have h2 := (bs.getD 2 0).isLt
  have h3 := (bs.getD 3 0).isLt
  omega

theorem rid_answer_lt (bo : ByteOrder) (buf : List Byte) (old_format : Int) :
    rid_answer bo buf old_format < 2 ^ 32 := by
  unfold rid_answer
  split
  · exact Nat.mod_lt _ (by decide)
  · cases bo
    · exact u32_of_le_lt _
    · exact u32_of_le_lt _

theorem recv_buf_eq (buf d : List Byte) (hd : d.length = 68) :
    memcpy buf 0 d (min d.length 120) = d ++ buf.drop 68 := by
  unfold memcpy
  rw [hd]
  have : List.take (min 68 120) d = d := List.take_of_length_le (by rw [hd]; decide)
  rw [this]
  simp

theorem rid_answer_append (bo : ByteOrder) (d rest : List Byte) (old_format : Int)
    (hd : d.length = 68) :
    rid_answer bo (d ++ rest) old_format = rid_answer bo d old_format := by
  have h : ((d ++ rest).drop NTP_PREFIX.length).take 4 = (d.drop NTP_PREFIX.length).take 4 := by
    rw [NTP_PREFIX_length, List.drop_append_of_le_length (by omega),
      List.take_append_of_le_length (by rw [List.length_drop]; omega)]
  unfold rid_answer
  rw [h]

theorem record_of_append (bo : ByteOrder) (cfg : Config) (d rest : List Byte)
    (hd : d.length = 68) :
    record_of bo cfg (d ++ rest) = expected_record bo cfg d := by
  have hsalt : c_string (bin2hex (d ++ rest) 48 (List.replicate 97 '?'))
      = hex_encode (d.take 48) := by
    rw [c_string_bin2hex _ _ _ (by simp) (by simp; omega),
      List.take_append_of_le_length (by omega)]
  have hhash : c_string (bin2hex ((d ++ rest).drop 52) 16 (List.replicate 33 '?'))
      = hex_encode ((d.drop 52).take 16) := by
    rw [c_string_bin2hex _ _ _ (by simp) (by simp; omega),
      List.drop_append_of_le_length (by omega),
      List.take_append_of_le_length (by rw [List.length_drop]; omega)]
  simp only [record_of, expected_record, fprintf_record, result_line, fmt_u, hsalt, hhash,
    rid_answer_append bo d rest cfg.old_format hd]

theorem send_step_fields (bo : ByteOrder) (cfg : Config) (rids : vec32_t) (st : LoopState) :
    (send_step bo cfg rids st).seen = st.seen
    ∧ (send_step bo cfg rids st).outf = st.outf
    ∧ (send_step bo cfg rids st).last_rx = st.last_rx
    ∧ (send_step bo cfg rids st).polls = st.polls
    ∧ (send_step bo cfg rids st).buf = st.buf := by
  unfold send_step
  split <;> simp

theorem sleep_step_fields (cfg : Config) (st : LoopState) (e : TickEnv) :
    (sleep_step cfg st e).seen = st.seen
    ∧ (sleep_step cfg st e).outf = st.outf
    ∧ (sleep_step cfg st e).last_rx = st.last_rx
    ∧ (sleep_step cfg st e).polls = st.polls := by
  simp only [sleep_step]
  split <;> simp

theorem handle_recv_polls (bo : ByteOrder) (cfg : Config) (st : LoopState) (n : Int) (t : Nat) :
    (handle_recv bo cfg st n t).polls = st.polls := by
  simp only [handle_recv]
  split_ifs <;> rfl

theorem handle_recv_ne (bo : ByteOrder) (cfg : Config) (st : LoopState) (n : Int) (t : Nat)
    (h : n ≠ 68) : handle_recv bo cfg st n t = st := by
  unfold handle_recv
  rw [if_neg h]

theorem recv_n_ne (d : List Byte) (h : d.length ≠ 68) : ((min d.length 120 : Nat) : Int) ≠ 68 := by
  omega

/-- The three fields of the state that the receive branch may change. -/
theorem recv_step_reject (bo : ByteOrder) (cfg : Config) (st : LoopState) (e : TickEnv)
    (h : ∀ d : List Byte, e.rx = RecvEvent.datagram d → d.length ≠ 68) :
    (recv_step bo cfg st e).seen = st.seen
    ∧ (recv_step bo cfg st e).outf = st.outf
    ∧ (recv_step bo cfg st e).last_rx = st.last_rx := by
  unfold recv_step
  cases hrx : e.rx with
  | idle => simp
  | failed => simp [handle_recv_ne]
  | datagram d =>
    simp only []
    rw [handle_recv_ne _ _ _ _ _ (recv_n_ne d (h d hrx))]
    simp

theorem recv_step_datagram (bo : ByteOrder) (cfg : Config) (st : LoopState) (e : TickEnv)
    (d : List Byte) (hrx : e.rx = RecvEvent.datagram d) (hd : d.length = 68) :
    (recv_step bo cfg st e).seen
        = (if duplicate st.seen (rid_answer bo d cfg.old_format) then st.seen
           else vec32_push st.seen (rid_answer bo d cfg.old_format))
    ∧ (recv_step bo cfg st e).outf
        = (if duplicate st.seen (rid_answer bo d cfg.old_format) then st.outf
           else st.outf ++ [expected_record bo cfg d])
    ∧ (recv_step bo cfg st e).last_rx
        = (if duplicate st.seen (rid_answer bo d cfg.old_format) then st.last_rx
           else e.t_accept % 2 ^ 64) := by
  unfold recv_step
  rw [hrx]
  simp only []
  rw [recv_buf_eq _ _ hd]
  have h68 : ((min 68 120 : Nat) : Int) = 68 := by decide
  simp only [handle_recv, hd, h68, if_true, rid_answer_append bo d _ _ hd,
    record_of_append bo cfg d _ hd]
  by_cases hdup : duplicate st.seen (rid_answer bo d cfg.old_format) = true
  · simp [hdup]
  · simp [hdup]

theorem tick_reject (bo : ByteOrder) (cfg : Config) (rids : vec32_t) (st : LoopState)
    (e : TickEnv) (h : ∀ d : List Byte, e.rx = RecvEvent.datagram d → d.length ≠ 68) :
    (tick bo cfg rids st e).seen = st.seen
    ∧ (tick bo cfg rids st e).outf = st.outf
    ∧ (tick bo cfg rids st e).last_rx = st.last_rx := by
  obtain ⟨a1, a2, a3, _⟩ := sleep_step_fields cfg (recv_step bo cfg (send_step bo cfg rids st) e) e
  obtain ⟨b1, b2, b3⟩ := recv_step_reject bo cfg (send_step bo cfg rids st) e h
  obtain ⟨c1, c2, c3, _, _⟩ := send_step_fields bo cfg rids st
  unfold tick
  exact ⟨by rw [a1, b1, c1], by rw [a2, b2, c2], by rw [a3, b3, c3]⟩

theorem tick_datagram (bo : ByteOrder) (cfg : Config) (rids : vec32_t) (st : LoopState)
    (e : TickEnv) (d : List Byte) (hrx : e.rx = RecvEvent.datagram d) (hd : d.length = 68) :
    (tick bo cfg rids st e).seen
        = (if duplicate st.seen (rid_answer bo d cfg.old_format) then st.seen
           else vec32_push st.seen (rid_answer bo d cfg.old_format))
    ∧ (tick bo cfg rids st e).outf
        = (if duplicate st.seen (rid_answer bo d cfg.old_format) then st.outf
           else st.outf ++ [expected_record bo cfg d])
    ∧ (tick bo cfg rids st e).last_rx
        = (if duplicate st.seen (rid_answer bo d cfg.old_format) then st.last_rx
           else e.t_accept % 2 ^ 64) := by
  obtain ⟨a1, a2, a3, _⟩ := sleep_step_fields cfg (recv_step bo cfg (send_step bo cfg rids st) e) e
  obtain ⟨b1, b2, b3⟩ := recv_step_datagram bo cfg (send_step bo cfg rids st) e d hrx hd
  obtain ⟨c1, c2, c3, _, _⟩ := send_step_fields bo cfg rids st
  unfold tick
  exact ⟨by rw [a1, b1, c1], by rw [a2, b2, c1, c2], by rw [a3, b3, c1, c3]⟩

theorem tick_polls (bo : ByteOrder) (cfg : Config) (rids : vec32_t) (st : LoopState)
    (e : TickEnv) : (tick bo cfg rids st e).polls = st.polls ++ [select_tv cfg] := by
  obtain ⟨_, _, _, a4⟩ := sleep_step_fields cfg (recv_step bo cfg (send_step bo cfg rids st) e) e
  obtain ⟨_, _, _, c4, _⟩ := send_step_fields bo cfg rids st
  unfold tick
  rw [a4]
  unfold recv_step
  cases e.rx with
  | idle => simp [c4]
  | failed => simp [handle_recv_polls, c4]
  | datagram d => simp [handle_recv_polls, c4]

/-- Every tick either leaves a 68-byte datagram out of account or handles exactly one. -/
theorem rx_cases (e : TickEnv) :
    (∀ d : List Byte, e.rx = RecvEvent.datagram d → d.length ≠ 68)
    ∨ (∃ d : List Byte, e.rx = RecvEvent.datagram d ∧ d.length = 68) := by
  cases hrx : e.rx with
  | idle => left; intro d h; cases h
  | failed => left; intro d h; cases h
  | datagram d0 =>
    by_cases h68 : d0.length = 68
    · right; exact ⟨d0, rfl, h68⟩
    · left; intro d h; cases h; exact h68

theorem received68_cons_reject (e : TickEnv) (es : List TickEnv)
    (h : ∀ d : List Byte, e.rx = RecvEvent.datagram d → d.length ≠ 68) :
    received68 (e :: es) = received68 es := by
  unfold received68
  rw [List.filterMap_cons]
  cases hrx : e.rx with
  | idle => simp
  | failed => simp
  | datagram d => simp [h d hrx]

theorem received68_cons_datagram (e : TickEnv) (es : List TickEnv) (d : List Byte)
    (hrx : e.rx = RecvEvent.datagram d) (hd : d.length = 68) :
    received68 (e :: es) = d :: received68 es := by
  unfold received68
  rw [List.filterMap_cons]
  simp [hrx, hd]

/-! ## Runs of the loop body -/

theorem first_arrivals_cons (x : Nat) (xs : List Nat) :
    first_arrivals (x :: xs) = x :: (first_arrivals xs).filter (fun y => y ≠ x) := rfl

theorem mem_first_arrivals (l : List Nat) (x : Nat) : x ∈ first_arrivals l ↔ x ∈ l := by
  induction l with
  | nil => simp [first_arrivals]
  | cons y ys ih =>
    rw [first_arrivals_cons, List.mem_cons, List.mem_cons, List.mem_filter, ih]
    by_cases h : x = y
    · simp [h]
    · simp [h]

theorem nodup_first_arrivals (l : List Nat) : (first_arrivals l).Nodup := by
  induction l with
  | nil => simp [first_arrivals]
  | cons y ys ih =>
    rw [first_arrivals_cons, List.nodup_cons]
    refine ⟨?_, ih.filter _⟩
    simp [List.mem_filter]

theorem first_arrivals_filter_dup (A : List Nat) (r : Nat) (l : List Nat) (h : r ∈ A) :
    (first_arrivals (r :: l)).filter (fun y => decide (y ∉ A))
      = (first_arrivals l).filter (fun y => decide (y ∉ A)) := by
  rw [first_arrivals_cons, List.filter_cons, if_neg (by simpa using h), List.filter_filter]
  apply List.filter_congr
  intro y _
  by_cases hy : y ∈ A
  · simp [hy]
  · have : y ≠ r := fun e => hy (e ▸ h)
    simp [hy, this]

theorem first_arrivals_filter_new (A : List Nat) (r : Nat) (l : List Nat) (h : r ∉ A) :
    (first_arrivals (r :: l)).filter (fun y => decide (y ∉ A))
      = r :: (first_arrivals l).filter (fun y => decide (y ∉ A ++ [r])) := by
  rw [first_arrivals_cons, List.filter_cons, if_pos (by simpa using h), List.filter_filter]
  congr 1
  apply List.filter_congr
  intro y _
  by_cases hy : y ∈ A <;> by_cases hr : y = r <;> simp [hy, hr]

theorem decoded_ids_cons_reject (bo : ByteOrder) (cfg : Config) (e : TickEnv) (es : List TickEnv)
    (h : ∀ d : List Byte, e.rx = RecvEvent.datagram d → d.length ≠ 68) :
    decoded_ids bo cfg (e :: es) = decoded_ids bo cfg es := by
  unfold decoded_ids
  rw [received68_cons_reject e es h]

theorem decoded_ids_cons_datagram (bo : ByteOrder) (cfg : Config) (e : TickEnv)
    (es : List TickEnv) (d : List Byte) (hrx : e.rx = RecvEvent.datagram d) (hd : d.length = 68) :
    decoded_ids bo cfg (e :: es) = rid_answer bo d cfg.old_format :: decoded_ids bo cfg es := by
  unfold decoded_ids
  rw [received68_cons_datagram e es d hrx hd, List.map_cons]

/-- Invariant of the accept branch, from any state with a well-formed Seen-set. -/
theorem run_ticks_acc (bo : ByteOrder) (cfg : Config) (rids : vec32_t) (es : List TickEnv) :
    ∀ st : LoopState, vec32_wf st.seen → st.seen.len = st.outf.length →
      vec32_wf (run_ticks bo cfg rids es st).seen
      ∧ (run_ticks bo cfg rids es st).seen.len = (run_ticks bo cfg rids es st).outf.length
      ∧ ∃ acc : List (List Byte), acc.Sublist (received68 es)
          ∧ (run_ticks bo cfg rids es st).outf = st.outf ++ acc.map (expected_record bo cfg)
          ∧ vec32_elems (run_ticks bo cfg rids es st).seen
              = vec32_elems st.seen ++ acc.map (fun d => rid_answer bo d cfg.old_format)
          ∧ acc.map (fun d => rid_answer bo d cfg.old_format)
              = (first_arrivals (decoded_ids bo cfg es)).filter
                  (fun y => decide (y ∉ vec32_elems st.seen)) := by
  induction es with
  | nil =>
    intro st hwf hlen
    exact ⟨hwf, hlen, [], List.Sublist.refl _, by simp [run_ticks], by simp [run_ticks],
      by simp [decoded_ids, received68, first_arrivals]⟩
  | cons e es ih =>
    intro st hwf hlen
    rw [run_ticks]
    rcases rx_cases e with hrej | ⟨d, hrx, hd⟩
    · obtain ⟨t1, t2, _⟩ := tick_reject bo cfg rids st e hrej
      obtain ⟨i1, i2, acc, i3, i4, i5, i6⟩ :=
        ih (tick bo cfg rids st e) (by rw [t1]; exact hwf) (by rw [t1, t2]; exact hlen)
      rw [t1] at i5 i6
      rw [t2] at i4
      refine ⟨i1, i2, acc, ?_, i4, i5, ?_⟩
      · rw [received68_cons_reject e es hrej]; exact i3
      · rw [decoded_ids_cons_reject bo cfg e es hrej]; exact i6
    · obtain ⟨t1, t2, _⟩ := tick_datagram bo cfg rids st e d hrx hd
      by_cases hdup : duplicate st.seen (rid_answer bo d cfg.old_format) = true
      · rw [if_pos hdup] at t1 t2
        have hmem := (duplicate_iff st.seen _ hwf).1 hdup
        obtain ⟨i1, i2, acc, i3, i4, i5, i6⟩ :=
          ih (tick bo cfg rids st e) (by rw [t1]; exact hwf) (by rw [t1, t2]; exact hlen)
        rw [t1] at i5 i6
        rw [t2] at i4
        refine ⟨i1, i2, acc, ?_, i4, i5, ?_⟩
        · rw [received68_cons_datagram e es d hrx hd]; exact List.Sublist.cons d i3
        · rw [decoded_ids_cons_datagram bo cfg e es d hrx hd,
            first_arrivals_filter_dup _ _ _ hmem]
          exact i6
      · rw [if_neg hdup] at t1 t2
        have hnmem : rid_answer bo d cfg.old_format ∉ vec32_elems st.seen :=
          fun hm => hdup ((duplicate_iff st.seen _ hwf).2 hm)
        have helems : vec32_elems (tick bo cfg rids st e).seen
            = vec32_elems st.seen ++ [rid_answer bo d cfg.old_format] := by
          rw [t1, vec32_push_elems _ _ hwf, Nat.mod_eq_of_lt (rid_answer_lt bo d cfg.old_format)]
        obtain ⟨i1, i2, acc, i3, i4, i5, i6⟩ :=
          ih (tick bo cfg rids st e) (by rw [t1]; exact vec32_push_wf _ _ hwf)
            (by rw [t1, t2, vec32_push_len, hlen]; simp)
        rw [helems] at i5 i6
        rw [t2] at i4
        refine ⟨i1, i2, d :: acc, ?_, ?_, ?_, ?_⟩
        · rw [received68_cons_datagram e es d hrx hd]; exact List.Sublist.cons₂ d i3
        · rw [i4]; simp
        · rw [i5]; simp
        · rw [decoded_ids_cons_datagram bo cfg e es d hrx hd,
            first_arrivals_filter_new _ _ _ hnmem, List.map_cons, i6]

theorem init_state_seen (t0 : Nat) :
    vec32_wf (init_state t0).seen ∧ (init_state t0).seen.len = (init_state t0).outf.length
    ∧ vec32_elems (init_state t0).seen = [] ∧ (init_state t0).outf = [] := by
  refine ⟨vec32_zero_wf, rfl, rfl, rfl⟩

/-! ## Loop exit and range expansion -/

theorem vec32_elems_length (vec : vec32_t) (h : vec32_wf vec) :
    (vec32_elems vec).length = vec.len := by
  unfold vec32_elems
  rw [List.length_take]
  have := h.1
  have := h.2
  omega

theorem main_loop_eq_run_ticks (bo : ByteOrder) (cfg : Config) (rids : vec32_t)
    (es : List TickEnv) :
    ∀ st : LoopState, ∃ k : Nat,
      (main_loop bo cfg rids es st).2 = run_ticks bo cfg rids (es.take k) st := by
  induction es with
  | nil => intro st; exact ⟨0, rfl⟩
  | cons e es ih =>
    intro st
    rw [main_loop]
    by_cases hc : loop_cond cfg st e.t_cond = true
    · rw [if_pos hc]
      obtain ⟨k, hk⟩ := ih (tick bo cfg rids st e)
      exact ⟨k + 1, by rw [hk, List.take_succ_cons, run_ticks]⟩
    · rw [if_neg hc]
      exact ⟨0, rfl⟩

theorem tick_seen_len_le (bo : ByteOrder) (cfg : Config) (rids : vec32_t) (st : LoopState)
    (e : TickEnv) : (tick bo cfg rids st e).seen.len ≤ st.seen.len + 1 := by
  rcases rx_cases e with hrej | ⟨d, hrx, hd⟩
  · rw [(tick_reject bo cfg rids st e hrej).1]; omega
  · rw [(tick_datagram bo cfg rids st e d hrx hd).1]
    split
    · omega
    · rw [vec32_push_len]

theorem range_loop_wrap (fuel : Nat) :
    ∀ (i : Nat) (out : vec32_t), i < 2 ^ 32 → range_loop 4294967295 fuel i out = none := by
  induction fuel with
  | zero => intro i out _; rfl
  | succ n ih =>
    intro i out hi
    rw [range_loop, if_pos (by omega)]
    exact ih _ _ (Nat.mod_lt _ (by decide))

theorem range_loop_ok (b : Nat) (hb : b < 2 ^ 32 - 1) (n : Nat) :
    ∀ (a : Nat) (out : vec32_t), a + n = b + 1 → vec32_wf out →
      ∃ out2 : vec32_t, range_loop b (n + 1) a out = some out2 ∧ vec32_wf out2
        ∧ vec32_elems out2 = vec32_elems out ++ List.range' a n := by
  induction n with
  | zero =>
    intro a out ha hwf
    refine ⟨out, ?_, hwf, by simp⟩
    rw [range_loop, if_neg (by omega)]
  | succ n ih =>
    intro a out ha hwf
    have hlt : a + 1 < 2 ^ 32 := by omega
    obtain ⟨out2, h1, h2, h3⟩ := ih (a + 1) (vec32_push out a) (by omega) (vec32_push_wf _ _ hwf)
    refine ⟨out2, ?_, h2, ?_⟩
    · rw [range_loop, if_pos (by omega), Nat.mod_eq_of_lt hlt]
      exact h1
    · rw [h3, vec32_push_elems _ _ hwf, Nat.mod_eq_of_lt (by omega), List.range'_succ]
      simp

/-- Range expansion below the largest 32-bit value: the loop ends and appends
`a, a+1, ..., b` after the elements already present. -/
theorem parse_rids_range_ok (a b : Nat) (out : vec32_t) (hab : a ≤ b) (hb : b < 4294967295)
    (hwf : vec32_wf out) :
    ∃ out2 : vec32_t, parse_rids_range (b - a + 2) a b out = Except.ok (some out2)
      ∧ vec32_elems out2 = vec32_elems out ++ List.range' a (b - a + 1) := by
  obtain ⟨out2, h1, _, h3⟩ := range_loop_ok b (by omega) (b - a + 1) a out (by omega) hwf
  refine ⟨out2, ?_, h3⟩
  unfold parse_rids_range
  rw [if_neg (by omega), h1]

/-! ## Receive path, deduplication, poll budget and range bound -/

/-- Claim C3: a tick that receives a datagram whose length is not exactly 68 bytes
writes no line, leaves the Seen-set as it was and keeps `last_rx`, so the idle clock
is not reset. -/
theorem malformed_datagram_rejected (bo : ByteOrder) (cfg : Config) (rids : vec32_t)
    (st : LoopState) (e : TickEnv) (d : List Byte)
    (hrx : e.rx = RecvEvent.datagram d) (hlen : d.length ≠ 68) :
    (tick bo cfg rids st e).outf = st.outf
    ∧ (tick bo cfg rids st e).seen = st.seen
    ∧ (tick bo cfg rids st e).last_rx = st.last_rx := by
  have hrej : ∀ d2 : List Byte, e.rx = RecvEvent.datagram d2 → d2.length ≠ 68 := by
    intro d2 h2
    rw [hrx] at h2
    cases h2
    exact hlen
  obtain ⟨h1, h2, h3⟩ := tick_reject bo cfg rids st e hrej
  exact ⟨h2, h1, h3⟩

theorem malformed_datagram_rejected_witness :
    (tick ByteOrder.little sample_cfg sample_rids (init_state 0) garbage_env).outf
        = (init_state 0).outf
    ∧ (tick ByteOrder.little sample_cfg sample_rids (init_state 0) garbage_env).seen
        = (init_state 0).seen
    ∧ (tick ByteOrder.little sample_cfg sample_rids (init_state 0) garbage_env).last_rx
        = (init_state 0).last_rx :=
  malformed_datagram_rejected ByteOrder.little sample_cfg sample_rids (init_state 0) garbage_env
    (List.replicate 40 0xab) rfl (by decide)

/-- Claim C5: for an accepted 68-byte datagram `d` with decoded identifier `r` the
line written is the decimal form of `r`, then `:$sntp-ms$`, then the hex of bytes
52..67, then `$`, then the hex of bytes 0..47, then a newline; the two hex fields are
what `bin2hex` stores, have 32 and 96 characters, and consist of the characters
`0-9a-f`, two per byte with the high nibble first. -/
theorem record_format (bo : ByteOrder) (cfg : Config) (rids : vec32_t) (st : LoopState)
    (e : TickEnv) (d : List Byte)
    (hrx : e.rx = RecvEvent.datagram d) (hlen : d.length = 68)
    (hacc : duplicate st.seen (rid_answer bo d cfg.old_format) = false) :
    (tick bo cfg rids st e).outf
        = st.outf ++ [Nat.toDigits 10 (rid_answer bo d cfg.old_format) ++ ":$sntp-ms$".toList
            ++ hex_encode ((d.drop 52).take 16) ++ ['$'] ++ hex_encode (d.take 48) ++ ['\n']]
    ∧ c_string (bin2hex (d.drop 52) 16 (List.replicate 33 '?')) = hex_encode ((d.drop 52).take 16)
    ∧ c_string (bin2hex d 48 (List.replicate 97 '?')) = hex_encode (d.take 48)
    ∧ (hex_encode ((d.drop 52).take 16)).length = 32
    ∧ (hex_encode (d.take 48)).length = 96
    ∧ (hex_encode ((d.drop 52).take 16)).all is_lower_hex = true
    ∧ (hex_encode (d.take 48)).all is_lower_hex = true := by
  obtain ⟨_, t2, _⟩ := tick_datagram bo cfg rids st e d hrx hlen
  rw [hacc] at t2
  refine ⟨?_, ?_, ?_, ?_, ?_, ?_, ?_⟩
  · rw [t2]
    simp [expected_record, result_line]
  · exact c_string_bin2hex _ _ _ (by simp) (by simp; omega)
  · exact c_string_bin2hex _ _ _ (by simp) (by omega)
  · rw [hex_encode_length]; simp; omega
  · rw [hex_encode_length]; simp; omega
  · rw [List.all_eq_true]; exact hex_encode_lower _
  · rw [List.all_eq_true]; exact hex_encode_lower _

theorem record_format_witness :
    (tick ByteOrder.little sample_cfg sample_rids (init_state 0) sample_env).outf
        = (init_state 0).outf
          ++ [Nat.toDigits 10 (rid_answer ByteOrder.little sample_reply sample_cfg.old_format)
            ++ ":$sntp-ms$".toList ++ hex_encode ((sample_reply.drop 52).take 16) ++ ['$']
            ++ hex_encode (sample_reply.take 48) ++ ['\n']]
    ∧ c_string (bin2hex (sample_reply.drop 52) 16 (List.replicate 33 '?'))
        = hex_encode ((sample_reply.drop 52).take 16)
    ∧ c_string (bin2hex sample_reply 48 (List.replicate 97 '?'))
        = hex_encode (sample_reply.take 48)
    ∧ (hex_encode ((sample_reply.drop 52).take 16)).length = 32
    ∧ (hex_encode (sample_reply.take 48)).length = 96
    ∧ (hex_encode ((sample_reply.drop 52).take 16)).all is_lower_hex = true
    ∧ (hex_encode (sample_reply.take 48)).all is_lower_hex = true :=
  record_format ByteOrder.little sample_cfg sample_rids (init_state 0) sample_env sample_reply
    rfl (by decide) (by decide)

/-- Claim C2: starting from the empty Seen-set, after any sequence of ticks the lines
written are the records of a subsequence of the received 68-byte datagrams whose
identifiers are the distinct decoded identifiers in order of first arrival (no
identifier twice, every decoded identifier once); a 68-byte datagram whose identifier
is already in the Seen-set writes no line and adds nothing, and a tick adds at most
one element to the Seen-set. -/
theorem dedup_over_run (bo : ByteOrder) (cfg : Config) (rids : vec32_t) (t0 : Nat)
    (es : List TickEnv) :
    (∃ acc : List (List Byte), acc.Sublist (received68 es)
        ∧ (run_ticks bo cfg rids es (init_state t0)).outf = acc.map (expected_record bo cfg)
        ∧ acc.map (fun d => rid_answer bo d cfg.old_format)
            = first_arrivals (decoded_ids bo cfg es))
    ∧ vec32_elems (run_ticks bo cfg rids es (init_state t0)).seen
        = first_arrivals (decoded_ids bo cfg es)
    ∧ (first_arrivals (decoded_ids bo cfg es)).Nodup
    ∧ (∀ x : Nat, x ∈ first_arrivals (decoded_ids bo cfg es) ↔ x ∈ decoded_ids bo cfg es)
    ∧ (∀ (e : TickEnv) (d : List Byte), e.rx = RecvEvent.datagram d → d.length = 68 →
        rid_answer bo d cfg.old_format
          ∈ vec32_elems (run_ticks bo cfg rids es (init_state t0)).seen →
        (tick bo cfg rids (run_ticks bo cfg rids es (init_state t0)) e).outf
            = (run_ticks bo cfg rids es (init_state t0)).outf
        ∧ (tick bo cfg rids (run_ticks bo cfg rids es (init_state t0)) e).seen
            = (run_ticks bo cfg rids es (init_state t0)).seen)
    ∧ (∀ e : TickEnv,
        (tick bo cfg rids (run_ticks bo cfg rids es (init_state t0)) e).seen.len
          ≤ (run_ticks bo cfg rids es (init_state t0)).seen.len + 1) := by
  obtain ⟨w1, w2, w3, w4⟩ := init_state_seen t0
  obtain ⟨i1, _, acc, i3, i4, i5, i6⟩ := run_ticks_acc bo cfg rids es (init_state t0) w1 w2
  rw [w3] at i5 i6
  rw [w4] at i4
  simp only [List.nil_append, List.not_mem_nil, not_false_eq_true, decide_True,
    List.filter_true] at i4 i5 i6
  refine ⟨⟨acc, i3, i4, i6⟩, by rw [i5, i6], nodup_first_arrivals _,
    mem_first_arrivals _, ?_, fun e => tick_seen_len_le bo cfg rids _ e⟩
  intro e d hrx hd hmem
  obtain ⟨t1, t2, _⟩ := tick_datagram bo cfg rids (run_ticks bo cfg rids es (init_state t0)) e d hrx hd
  have hdup := (duplicate_iff _ _ i1).2 hmem
  rw [if_pos hdup] at t1 t2
  exact ⟨t2, t1⟩

/-- Claim C7: after any number of ticks, and at loop exit, `seen.len` (the count of
the final summary) equals the number of lines written so far; further ticks keep every
element of the Seen-set in place and never lower `seen.len`. -/
theorem seen_count_invariant (bo : ByteOrder) (cfg : Config) (rids : vec32_t) (t0 : Nat)
    (es es2 : List TickEnv) :
    summary_count (run_ticks bo cfg rids es (init_state t0))
        = (run_ticks bo cfg rids es (init_state t0)).outf.length
    ∧ (vec32_elems (run_ticks bo cfg rids es (init_state t0)).seen).length
        = (run_ticks bo cfg rids es (init_state t0)).outf.length
    ∧ summary_count (main_loop bo cfg rids es (init_state t0)).2
        = (main_loop bo cfg rids es (init_state t0)).2.outf.length
    ∧ vec32_elems (run_ticks bo cfg rids es (init_state t0)).seen
        <+: vec32_elems (run_ticks bo cfg rids es2 (run_ticks bo cfg rids es (init_state t0))).seen
    ∧ (run_ticks bo cfg rids es (init_state t0)).seen.len
        ≤ (run_ticks bo cfg rids es2 (run_ticks bo cfg rids es (init_state t0))).seen.len := by
  obtain ⟨w1, w2, _, _⟩ := init_state_seen t0
  obtain ⟨i1, i2, _⟩ := run_ticks_acc bo cfg rids es (init_state t0) w1 w2
  obtain ⟨j1, _, acc, _, _, j5, _⟩ :=
    run_ticks_acc bo cfg rids es2 (run_ticks bo cfg rids es (init_state t0)) i1 i2
  obtain ⟨k, hk⟩ := main_loop_eq_run_ticks bo cfg rids es (init_state t0)
  obtain ⟨_, m2, _⟩ := run_ticks_acc bo cfg rids (es.take k) (init_state t0) w1 w2
  refine ⟨i2, by rw [vec32_elems_length _ i1, i2], by rw [hk]; exact m2, ⟨_, j5.symm⟩, ?_⟩
  have h := congrArg List.length j5
  rw [vec32_elems_length _ j1, List.length_append, vec32_elems_length _ i1] at h
  omega

/-- Claim C8, as stated, fails: with rate 180 (interval 5 ms) and `select` entered
3 ms after the tick began, the time-out handed to `select` is 5000 microseconds, not
the 2000 microseconds left of the interval. -/
theorem poll_budget_not_reduced :
    poll_budget_us (tick ByteOrder.little sample_cfg sample_rids (init_state 0) sample_env)
        = some 5000
    ∧ spec_poll_budget_us sample_cfg sample_env = 2000
    ∧ poll_budget_us (tick ByteOrder.little sample_cfg sample_rids (init_state 0) sample_env)
        ≠ some (spec_poll_budget_us sample_cfg sample_env) := by
  refine ⟨?_, ?_, ?_⟩
  · rw [poll_budget_us, tick_polls]; decide
  · decide
  · rw [poll_budget_us, tick_polls]; decide

/-- Claim C8, amended: every tick hands `select` the whole pacing interval
(`tv_sec = 0`, `tv_usec = interval * 1000`), whatever the clock readings of the tick. -/
theorem poll_budget_full_interval (bo : ByteOrder) (cfg : Config) (rids : vec32_t)
    (st : LoopState) (e e2 : TickEnv) :
    (tick bo cfg rids st e).polls = st.polls ++ [(0, ((interval cfg * 1000 : Nat) : Int))]
    ∧ poll_budget_us (tick bo cfg rids st e) = some ((interval cfg * 1000 : Nat) : Int)
    ∧ poll_budget_us (tick bo cfg rids st e2) = poll_budget_us (tick bo cfg rids st e) := by
  have h : ∀ x : TickEnv, (tick bo cfg rids st x).polls
      = st.polls ++ [(0, ((interval cfg * 1000 : Nat) : Int))] := by
    intro x
    rw [tick_polls, select_tv_eq]
  refine ⟨h e, ?_, ?_⟩
  · rw [poll_budget_us, h e]
    simp
  · rw [poll_budget_us, poll_budget_us, h e, h e2]

/-- Claim C10 fails on the code when `b` is 4294967295: the condition `i <= b` holds
for every `uint32_t` value of `i`, so the expansion loop is still running after any
number of steps. -/
theorem range_to_max_never_ends (fuel a : Nat) (out : vec32_t) (ha : a ≤ 4294967295) :
    parse_rids_range fuel a 4294967295 out = Except.ok none := by
  unfold parse_rids_range
  rw [if_neg (by omega), range_loop_wrap fuel a out (by omega)]

theorem range_to_max_never_ends_witness :
    parse_rids_range 1000 4294967295 4294967295 vec32_zero = Except.ok none :=
  range_to_max_never_ends 1000 4294967295 vec32_zero (by decide)

theorem idle_timeout_rule_witness :
    main_loop ByteOrder.little sample_cfg sample_rids
        [{ sample_env with t_cond := 24000 }] (init_state 0)
      = (if sample_cfg.timeout.toNat * 1000
            ≤ ({ sample_env with t_cond := 24000 } : TickEnv).t_cond - (init_state 0).last_rx
         then (Phase.DONE, init_state 0)
         else main_loop ByteOrder.little sample_cfg sample_rids []
            (tick ByteOrder.little sample_cfg sample_rids (init_state 0)
              { sample_env with t_cond := 24000 })) :=
  (idle_timeout_rule ByteOrder.little sample_cfg sample_rids (init_state 0)
    { sample_env with t_cond := 24000 } [] (by decide) (by decide) (by decide) (by decide)).1

end Timeroast
